import Mathlib

/-!
Verification development for the VFSS repository (SAM + AlphaCLIP open-vocabulary
segmentation evaluation pipeline).

Shallow embedding of the relevant Python code:
  * `src/utils/utilsSAM.py`: `is_contained`, `filter_masks`, `add_padding`,
    `post_processing`, `blurred_masks`, `red_circle_masks`, `bbox_masks`,
    `black_background_masks`;
  * `src/sam_pipeline.py`: `Evaluator.add_labels` and the per-batch body of
    `Evaluator.eval`.

Modelling conventions:
  * numpy / torch images are modelled as pixel functions `Int → Int → Int → ℚ`
    (row, column, channel); pixel values are rationals (the code converts
    `uint8` images to `float32` before any arithmetic relevant here, and all
    arithmetic used by the claims is exact: multiplication by a 0/1 mask and
    addition);
  * a SAM mask dict is a structure with its `segmentation` boolean array
    (as a pixel predicate) and its `bbox` list `[x, y, w, h]`;
  * `cv2.GaussianBlur(image, (15, 15), 0)` and `cv2.ellipse` are third-party
    primitives, modelled as explicit function parameters `blur` and `ellipse`;
  * Python mutation of the caller's mask list (`copy.deepcopy` in
    `post_processing`, the in-place writes in `bbox_masks`) is modelled with an
    explicit store of mask lists (`Heap`), so aliasing claims are expressible;
  * Python `int()` applied to a nonnegative float and `//` floor division are
    modelled exactly on `ℚ` / `Int`.
-/

set_option maxHeartbeats 1000000

namespace VFSS

/-- A SAM-style bounding box, the Python list `[x, y, w, h]` read positionally:
`x`, `y` are the corner, `w`, `h` the extents (fields are the four slots of the
list in order). -/
structure Bbox where
  x : Int
  y : Int
  w : Int
  h : Int
deriving DecidableEq, Repr

/-- A SAM mask dict, reduced to the two entries the code reads and writes:
`segmentation` (a boolean pixel array, modelled as a predicate on
row/column indices) and `bbox`. -/
structure Mask where
  segmentation : Int → Int → Bool
  bbox : Bbox

instance : Inhabited Mask := ⟨⟨fun _ _ => false, ⟨0, 0, 0, 0⟩⟩⟩

/-- `utilsSAM.is_contained(inner_bbox, outer_bbox)`: the bounding box
`inner_bbox` is completely contained in `outer_bbox`. -/
def is_contained (inner_bbox outer_bbox : Bbox) : Bool :=
  decide (inner_bbox.x ≥ outer_bbox.x) &&
  decide (inner_bbox.y ≥ outer_bbox.y) &&
  decide (inner_bbox.x + inner_bbox.w ≤ outer_bbox.x + outer_bbox.w) &&
  decide (inner_bbox.y + inner_bbox.h ≤ outer_bbox.y + outer_bbox.h)

/-- The `is_largest` flag computed by the inner loop of `utilsSAM.filter_masks`
for the mask `mask` at index `i`: it ends up `false` exactly when some other
index `j` has `is_contained(mask.bbox, other.bbox)` and
`mask.bbox[2]*mask.bbox[3] <= other.bbox[2]*other.bbox[3]` (the loop breaks at
the first such `j`, which `List.any` mirrors by short-circuiting). -/
def is_largest (masks : List Mask) (i : ℕ) (mask : Mask) : Bool :=
  ! masks.enum.any fun q =>
      decide (i ≠ q.1) && is_contained mask.bbox q.2.bbox &&
        decide (mask.bbox.w * mask.bbox.h ≤ q.2.bbox.w * q.2.bbox.h)

/-- `utilsSAM.filter_masks(masks, predictions)`: keep the masks whose
`is_largest` flag survives the inner loop, in order, together with the matching
predictions (`predictions[i]` when a prediction list is given, `None`
otherwise; an out-of-range `predictions[i]` is modelled as `none`). -/
def filter_masks {P : Type} (masks : List Mask) (predictions : Option (List P)) :
    List Mask × List (Option P) :=
  let kept := masks.enum.filter fun p => is_largest masks p.1 p.2
  (kept.map Prod.snd, kept.map fun p => predictions.bind fun ps => ps.get? p.1)

/-- Spec-side keep condition for `filter_masks`, written from the claim: mask
`i` is kept iff there is no other index `j` whose bounding box contains mask
`i`'s bounding box component-wise and has at least its area. -/
def keptSpec (masks : List Mask) (i : ℕ) : Prop :=
  ¬ ∃ j ∈ List.range masks.length, j ≠ i ∧
      (masks.getD i default).bbox.x ≥ (masks.getD j default).bbox.x ∧
      (masks.getD i default).bbox.y ≥ (masks.getD j default).bbox.y ∧
      (masks.getD i default).bbox.x + (masks.getD i default).bbox.w ≤
        (masks.getD j default).bbox.x + (masks.getD j default).bbox.w ∧
      (masks.getD i default).bbox.y + (masks.getD i default).bbox.h ≤
        (masks.getD j default).bbox.y + (masks.getD j default).bbox.h ∧
      (masks.getD i default).bbox.w * (masks.getD i default).bbox.h ≤
        (masks.getD j default).bbox.w * (masks.getD j default).bbox.h

instance keptSpecDecidable (masks : List Mask) (i : ℕ) : Decidable (keptSpec masks i) := by
  unfold keptSpec
  exact inferInstance

lemma mem_enum_elim {α : Type} [Inhabited α] {l : List α} {p : ℕ × α}
    (hp : p ∈ l.enum) : p.1 < l.length ∧ l.getD p.1 default = p.2 := by
  rw [List.mem_enum_iff_getElem?] at hp
  have h1 : p.1 < l.length := by
    by_contra hn
    rw [List.getElem?_eq_none (by omega)] at hp
    exact Option.noConfusion hp
  refine ⟨h1, ?_⟩
  rw [List.getD_eq_getElem?_getD, hp]
  rfl

lemma mem_enum_intro {α : Type} [Inhabited α] {l : List α} {j : ℕ}
    (hj : j < l.length) : (j, l.getD j default) ∈ l.enum := by
  rw [List.mem_enum_iff_getElem?, List.getD_eq_getElem?_getD,
    List.getElem?_eq_getElem hj]
  rfl

lemma is_largest_eq_keptSpec (masks : List Mask) (i : ℕ) (hi : i < masks.length) :
    is_largest masks i (masks.getD i default) = decide (keptSpec masks i) := by
  rw [Bool.eq_iff_iff, decide_eq_true_iff]
  unfold is_largest keptSpec
  rw [Bool.not_eq_true', List.any_eq_false]
  constructor
  · intro hall
    rintro ⟨j, hjr, hji, c1, c2, c3, c4, c5⟩
    rw [List.mem_range] at hjr
    have hfq := hall (j, masks.getD j default) (mem_enum_intro hjr)
    apply hfq
    unfold is_contained
    simp only [Bool.and_eq_true, decide_eq_true_iff]
    exact ⟨⟨Ne.symm hji, ⟨⟨⟨c1, c2⟩, c3⟩, c4⟩⟩, c5⟩
  · intro hk q hq hcon
    obtain ⟨hqlen, hqval⟩ := mem_enum_elim hq
    rw [← hqval] at hcon
    unfold is_contained at hcon
    simp only [Bool.and_eq_true, decide_eq_true_iff] at hcon
    obtain ⟨⟨hne, ⟨⟨⟨c1, c2⟩, c3⟩, c4⟩⟩, c5⟩ := hcon
    exact hk ⟨q.1, List.mem_range.mpr hqlen, Ne.symm hne, c1, c2, c3, c4, c5⟩

/-- C1: `filter_masks` keeps the mask at index `i` if and only if no other
index `j` has a bounding box containing mask `i`'s bounding box component-wise
with at least its area; the kept masks appear in their original order (the
result is the in-order sublist of masks at the indices satisfying
`keptSpec`). -/
theorem filter_masks_keeps_iff_no_containing_larger {P : Type}
    (masks : List Mask) (preds : Option (List P)) :
    (filter_masks masks preds).1 =
      (masks.enum.filter fun p => decide (keptSpec masks p.1)).map Prod.snd := by
  unfold filter_masks
  refine congrArg (List.map Prod.snd) (List.filter_congr ?_)
  intro p hp
  obtain ⟨hlen, hval⟩ := mem_enum_elim hp
  rw [← hval]
  exact is_largest_eq_keptSpec masks p.1 hlen

/-- Python `int()` on a rational: truncation toward zero. -/
def pyInt (q : ℚ) : Int := if 0 ≤ q then q.floor else q.ceil

/-- `utilsSAM.add_padding(bbox, image_shape, padding_p)`.
`image_shape` is `(height, width, channels)`; the result is
`(x1, y1, new_height, new_width)`.  `int(padding_p * max(w, h))` is `pyInt`,
`diff // 2` is `Int.fdiv` (Python floor division). -/
def add_padding (bbox : Bbox) (image_shape : Int × Int × Int) (padding_p : ℚ) :
    Int × Int × Int × Int :=
  let x := bbox.x
  let y := bbox.y
  let w := bbox.w
  let h := bbox.h
  let im_height := image_shape.1
  let im_width := image_shape.2.1
  let padding : Int := pyInt (padding_p * ((max w h : Int) : ℚ))
  let y1 := max 0 (y - padding)
  let x1 := max 0 (x - padding)
  let new_height := if h + 2 * padding > im_height then im_height - y1 else h + 2 * padding
  let new_width := if w + 2 * padding > im_width then im_width - x1 else w + 2 * padding
  if new_height = new_width then
    (x1, y1, new_height, new_width)
  else if new_height > new_width then
    let diff := new_height - new_width
    (max 0 (x1 - Int.fdiv diff 2), y1, new_height, new_height)
  else
    let diff := new_width - new_height
    (x1, max 0 (y1 - Int.fdiv diff 2), new_width, new_width)

/-- C10: for every bounding box with nonnegative components, every image shape
and every nonnegative padding fraction, `add_padding` returns a square region
(`new_height = new_width`) whose corner is in the nonnegative quadrant. -/
theorem add_padding_square_and_nonneg (bbox : Bbox) (shape : Int × Int × Int)
    (p : ℚ) (hx : 0 ≤ bbox.x) (hy : 0 ≤ bbox.y) (hw : 0 ≤ bbox.w)
    (hh : 0 ≤ bbox.h) (hp : 0 ≤ p)
    (x1 y1 nh nw : Int) (heq : add_padding bbox shape p = (x1, y1, nh, nw)) :
    nh = nw ∧ 0 ≤ x1 ∧ 0 ≤ y1 := by
  simp only [add_padding] at heq
  split_ifs at heq <;>
    (simp only [Prod.mk.injEq] at heq
     obtain ⟨e1, e2, e3, e4⟩ := heq
     exact ⟨by omega, by omega, by omega⟩)

/-- Witness for C10 at the concrete bbox `[0, 0, 4, 2]`, image shape
`(10, 10, 3)`, padding fraction `15/100`. -/
theorem add_padding_square_and_nonneg_witness :
    (4 : Int) = 4 ∧ (0 : Int) ≤ 0 ∧ (0 : Int) ≤ 0 :=
  add_padding_square_and_nonneg ⟨0, 0, 4, 2⟩ (10, 10, 3) (15 / 100)
    (by decide) (by decide) (by decide) (by decide) (by norm_num)
    0 0 4 4 (by norm_num [add_padding, pyInt, Rat.floor, Int.fdiv])

/-! ## Images and per-mask post-processing (`utilsSAM.py`)

An image is a pixel function `(row, column, channel) → value` (numpy
`(H, W, C)` layout, the layout `post_processing` hands to the per-mask
functions).  Pixel values are `ℚ`: `post_processing` converts `uint8` input to
`float32` before dispatching, and the arithmetic in the claims (0/1 mask
multipliers, sums) is exact. -/

abbrev Image := Int → Int → Int → ℚ

instance : Inhabited Image := ⟨fun _ _ _ => 0⟩

/-- Value of a segmentation pixel after `segmentation.astype(np.uint8)`. -/
def maskVal (b : Bool) : ℚ := if b then 1 else 0

/-- `utilsSAM.blurred_masks(masks, image)`: for each mask, combine the image
(where the mask is 1) with its blurred version (where the mask is 0).
`blur` stands for the third-party `cv2.GaussianBlur(image, (15, 15), 0)`,
which the loop recomputes identically for every mask. -/
def blurred_masks (blur : Image → Image) (masks : List Mask) (image : Image) :
    List Image :=
  masks.map fun mask_dict => fun r c ch =>
    image r c ch * maskVal (mask_dict.segmentation r c) +
      blur image r c ch * (1 - maskVal (mask_dict.segmentation r c))

/-- `utilsSAM.red_circle_masks(masks, image)`: for each mask, draw a red
ellipse on a copy of the image, centered at `(int(x + w/2), int(y + h/2))`
with axes `(int(w * 0.75), int(h * 0.75))`.  `ellipse` stands for the
third-party `cv2.ellipse(...)` call (center, axes, image). -/
def red_circle_masks (ellipse : Int × Int → Int × Int → Image → Image)
    (masks : List Mask) (image : Image) : List Image :=
  masks.map fun mask_dict =>
    let center_x := pyInt ((mask_dict.bbox.x : ℚ) + (mask_dict.bbox.w : ℚ) / 2)
    let center_y := pyInt ((mask_dict.bbox.y : ℚ) + (mask_dict.bbox.h : ℚ) / 2)
    let width_len := pyInt ((mask_dict.bbox.w : ℚ) * (75 / 100))
    let height_len := pyInt ((mask_dict.bbox.h : ℚ) * (75 / 100))
    ellipse (center_x, center_y) (width_len, height_len) image

/-- `utilsSAM.black_background_masks(masks, image)`: for each mask, the image
multiplied pixel-wise by the 0/1 mask (`image.copy() * binary_mask[:, :, np.newaxis]`,
broadcast over channels; the multiplication produces a fresh array, the
original image is untouched). -/
def black_background_masks (masks : List Mask) (image : Image) : List Image :=
  masks.map fun mask_dict => fun r c ch =>
    image r c ch * maskVal (mask_dict.segmentation r c)

/-- The padded region `add_padding((x, y, w, h), image.shape, 0.15)` computed
in `utilsSAM.bbox_masks` (the Python literal `0.15` is the fraction 15/100). -/
def padded_region (mask_dict : Mask) (image_shape : Int × Int × Int) :
    Int × Int × Int × Int :=
  add_padding mask_dict.bbox image_shape (15 / 100)

/-- The image produced for one mask by `utilsSAM.bbox_masks`: the crop
`processed_image[y:y+h, x:x+w]` of a copy of the image at the padded region
(`x, y, h, w = add_padding(...)`), as a shifted pixel function. -/
def bbox_crop_image (image : Image) (image_shape : Int × Int × Int)
    (mask_dict : Mask) : Image :=
  fun r c ch =>
    image ((padded_region mask_dict image_shape).2.1 + r)
      ((padded_region mask_dict image_shape).1 + c) ch

/-- The mask written back for one mask by `utilsSAM.bbox_masks`:
`masks[i]['segmentation'] = masks[i]['segmentation'][y:y+h, x:x+w]` and
`masks[i]['bbox'] = [x, y, h, w]` (the bbox list is overwritten with the
region `(x1, y1, new_height, new_width)` in that slot order). -/
def bbox_crop_mask (image_shape : Int × Int × Int) (mask_dict : Mask) : Mask :=
  { segmentation := fun r c =>
      mask_dict.segmentation ((padded_region mask_dict image_shape).2.1 + r)
        ((padded_region mask_dict image_shape).1 + c),
    bbox := ⟨(padded_region mask_dict image_shape).1,
      (padded_region mask_dict image_shape).2.1,
      (padded_region mask_dict image_shape).2.2.1,
      (padded_region mask_dict image_shape).2.2.2⟩ }

/-- `utilsSAM.bbox_masks(masks, image)`: one loop appends the cropped image
and overwrites `masks[i]` in place; its two result lists are the two maps.
`image_shape` is the `image.shape` read by `add_padding`. -/
def bbox_masks (masks : List Mask) (image : Image)
    (image_shape : Int × Int × Int) : List Image × List Mask :=
  (masks.map (bbox_crop_image image image_shape),
   masks.map (bbox_crop_mask image_shape))

/-! ## Mutable mask lists

`post_processing` deep-copies its `masks` argument and `bbox_masks` then
mutates that copy in place; `Evaluator.eval` relies on the caller's list being
left intact.  To make such aliasing facts statable, mask lists live in an
explicit store: a `Heap` maps references (allocated below `next`) to mask
lists.  `copy.deepcopy` allocates a fresh reference holding the same value;
in-place mutation writes through a reference. -/

structure Heap where
  data : ℕ → List Mask
  next : ℕ

/-- Allocate a fresh reference holding `v` (models `copy.deepcopy`). -/
def Heap.alloc (h : Heap) (v : List Mask) : Heap × ℕ :=
  (⟨fun n => if n = h.next then v else h.data n, h.next + 1⟩, h.next)

/-- Overwrite the list behind reference `r` (models in-place mutation). -/
def Heap.write (h : Heap) (r : ℕ) (v : List Mask) : Heap :=
  ⟨fun n => if n = r then v else h.data n, h.next⟩

/-- `torch.tensor(image).permute((2, 0, 1))`: `(H, W, C)` to `(C, H, W)`. -/
def permuteCHW (img : Image) : Image := fun ch r c => img r c ch

/-- `utilsSAM.post_processing(masks, image, post_processing=method)` from the
`masks_copy = copy.deepcopy(masks)` line on.  The preceding dtype
normalisation (lines 89–97) only reformats the `image` argument (`uint8` to
`float32`, `(3, H, W)` to `(H, W, 3)`) and is taken as already applied to
`image`; the `uint8` re-check after dispatch is dead once the input has been
converted.  `masksRef` is the caller's reference to the mask list; the
returned pair is `(images, masks_copy)` (after the final
`permute((2, 0, 1))`), or `ValueError` for an unrecognised method. -/
def post_processing (blur : Image → Image)
    (ellipse : Int × Int → Int × Int → Image → Image)
    (h : Heap) (masksRef : ℕ) (image : Image)
    (image_shape : Int × Int × Int) (method : String) :
    Heap × Except Unit (List Image × List Mask) :=
  let masks := h.data masksRef
  let h1 := (h.alloc masks).1
  let rc := (h.alloc masks).2
  if method = "blurred_masks" then
    (h1, Except.ok ((blurred_masks blur (h1.data rc) image).map permuteCHW, h1.data rc))
  else if method = "red_circle_masks" then
    (h1, Except.ok ((red_circle_masks ellipse (h1.data rc) image).map permuteCHW, h1.data rc))
  else if method = "bbox_masks" then
    let imgs := (bbox_masks (h1.data rc) image image_shape).1
    let h2 := h1.write rc (bbox_masks (h1.data rc) image image_shape).2
    (h2, Except.ok (imgs.map permuteCHW, h2.data rc))
  else if method = "black_background_masks" then
    (h1, Except.ok ((black_background_masks (h1.data rc) image).map permuteCHW, h1.data rc))
  else if method = "none" then
    (h1, Except.ok ((masks.map fun _ => image).map permuteCHW, h1.data rc))
  else
    (h1, Except.error ())

/-- The five method names `post_processing` recognises. -/
def recognizedMethods : List String :=
  ["blurred_masks", "red_circle_masks", "bbox_masks", "black_background_masks", "none"]

lemma Heap.alloc_read_old (h : Heap) (v : List Mask) (r : ℕ) (hr : r < h.next) :
    (h.alloc v).1.data r = h.data r := by
  simp only [Heap.alloc]
  rw [if_neg (by omega)]

lemma Heap.write_read_ne (h : Heap) (r r' : ℕ) (v : List Mask) (hne : r ≠ r') :
    (h.write r' v).data r = h.data r := by
  simp only [Heap.write]
  rw [if_neg hne]

lemma post_processing_blurred (blur : Image → Image)
    (ellipse : Int × Int → Int × Int → Image → Image) (h : Heap) (r : ℕ)
    (image : Image) (shape : Int × Int × Int) :
    post_processing blur ellipse h r image shape "blurred_masks" =
      ((h.alloc (h.data r)).1,
        Except.ok ((blurred_masks blur (h.data r) image).map permuteCHW, h.data r)) := by
  simp [post_processing, Heap.alloc]

lemma post_processing_red_circle (blur : Image → Image)
    (ellipse : Int × Int → Int × Int → Image → Image) (h : Heap) (r : ℕ)
    (image : Image) (shape : Int × Int × Int) :
    post_processing blur ellipse h r image shape "red_circle_masks" =
      ((h.alloc (h.data r)).1,
        Except.ok ((red_circle_masks ellipse (h.data r) image).map permuteCHW, h.data r)) := by
  simp [post_processing, Heap.alloc]

lemma post_processing_bbox (blur : Image → Image)
    (ellipse : Int × Int → Int × Int → Image → Image) (h : Heap) (r : ℕ)
    (image : Image) (shape : Int × Int × Int) :
    post_processing blur ellipse h r image shape "bbox_masks" =
      ((h.alloc (h.data r)).1.write (h.alloc (h.data r)).2
          (bbox_masks (h.data r) image shape).2,
        Except.ok ((bbox_masks (h.data r) image shape).1.map permuteCHW,
          (bbox_masks (h.data r) image shape).2)) := by
  simp [post_processing, Heap.alloc, Heap.write]

lemma post_processing_black (blur : Image → Image)
    (ellipse : Int × Int → Int × Int → Image → Image) (h : Heap) (r : ℕ)
    (image : Image) (shape : Int × Int × Int) :
    post_processing blur ellipse h r image shape "black_background_masks" =
      ((h.alloc (h.data r)).1,
        Except.ok ((black_background_masks (h.data r) image).map permuteCHW, h.data r)) := by
  simp [post_processing, Heap.alloc]

lemma post_processing_none (blur : Image → Image)
    (ellipse : Int × Int → Int × Int → Image → Image) (h : Heap) (r : ℕ)
    (image : Image) (shape : Int × Int × Int) :
    post_processing blur ellipse h r image shape "none" =
      ((h.alloc (h.data r)).1,
        Except.ok (((h.data r).map fun _ => image).map permuteCHW, h.data r)) := by
  simp [post_processing, Heap.alloc]

lemma post_processing_unrecognized (blur : Image → Image)
    (ellipse : Int × Int → Int × Int → Image → Image) (h : Heap) (r : ℕ)
    (image : Image) (shape : Int × Int × Int) (method : String)
    (hm : ¬ method ∈ recognizedMethods) :
    post_processing blur ellipse h r image shape method =
      ((h.alloc (h.data r)).1, Except.error ()) := by
  simp only [recognizedMethods, List.mem_cons, List.not_mem_nil, or_false,
    not_or] at hm
  obtain ⟨n1, n2, n3, n4, n5⟩ := hm
  simp [post_processing, n1, n2, n3, n4, n5]

lemma mem_recognized_cases (method : String) (hm : method ∈ recognizedMethods) :
    method = "blurred_masks" ∨ method = "red_circle_masks" ∨
    method = "bbox_masks" ∨ method = "black_background_masks" ∨
    method = "none" := by
  simpa only [recognizedMethods, List.mem_cons, List.not_mem_nil, or_false]
    using hm

/-- A concrete mask covering exactly the pixel `(0, 0)`, for witnesses. -/
def maskA : Mask := ⟨fun r c => decide (r = 0) && decide (c = 0), ⟨0, 0, 1, 1⟩⟩

/-- A concrete constant image, for witnesses. -/
def imageA : Image := fun _ _ _ => 5

/-- A concrete stand-in for `cv2.GaussianBlur`, for witnesses. -/
def blurA : Image → Image := fun _ => fun _ _ _ => 7

/-- A concrete stand-in for `cv2.ellipse`, for witnesses. -/
def ellipseA : Int × Int → Int × Int → Image → Image := fun _ _ img => img

/-- A concrete heap with the single reference `0` holding `[maskA]`. -/
def heapA : Heap := ⟨fun _ => [maskA], 1⟩

/-- C4: for every mask list, image and recognised method, `post_processing`
returns normally with exactly one processed image per input mask, and the
returned mask list is also as long as the input mask list. -/
theorem post_processing_one_image_per_mask (blur : Image → Image)
    (ellipse : Int × Int → Int × Int → Image → Image) (h : Heap) (r : ℕ)
    (image : Image) (shape : Int × Int × Int) (method : String)
    (hm : method ∈ recognizedMethods) :
    ∃ imgs ms,
      (post_processing blur ellipse h r image shape method).2 = Except.ok (imgs, ms) ∧
      imgs.length = (h.data r).length ∧ ms.length = (h.data r).length := by
  rcases mem_recognized_cases method hm with h1|h1|h1|h1|h1 <;> subst h1
  · rw [post_processing_blurred]
    exact ⟨_, _, rfl, by simp [blurred_masks], rfl⟩
  · rw [post_processing_red_circle]
    exact ⟨_, _, rfl, by simp [red_circle_masks], rfl⟩
  · rw [post_processing_bbox]
    exact ⟨_, _, rfl, by simp [bbox_masks], by simp [bbox_masks]⟩
  · rw [post_processing_black]
    exact ⟨_, _, rfl, by simp [black_background_masks], rfl⟩
  · rw [post_processing_none]
    exact ⟨_, _, rfl, by simp, rfl⟩

/-- Witness for C4 with one mask, the method `"bbox_masks"`. -/
theorem post_processing_one_image_per_mask_witness :
    ∃ imgs ms,
      (post_processing blurA ellipseA heapA 0 imageA (10, 10, 3) "bbox_masks").2 =
        Except.ok (imgs, ms) ∧
      imgs.length = (heapA.data 0).length ∧ ms.length = (heapA.data 0).length :=
  post_processing_one_image_per_mask blurA ellipseA heapA 0 imageA (10, 10, 3)
    "bbox_masks" (by decide)

/-- C8: for every recognised method, `post_processing` leaves the caller's
mask list (the list behind the valid reference `r`) untouched: only the deep
copy allocated inside is ever mutated. -/
theorem post_processing_preserves_input_masks (blur : Image → Image)
    (ellipse : Int × Int → Int × Int → Image → Image) (h : Heap) (r : ℕ)
    (image : Image) (shape : Int × Int × Int) (method : String)
    (hm : method ∈ recognizedMethods) (hr : r < h.next) :
    ((post_processing blur ellipse h r image shape method).1).data r = h.data r := by
  rcases mem_recognized_cases method hm with h1|h1|h1|h1|h1 <;> subst h1
  · rw [post_processing_blurred]
    exact Heap.alloc_read_old h _ r hr
  · rw [post_processing_red_circle]
    exact Heap.alloc_read_old h _ r hr
  · rw [post_processing_bbox]
    rw [Heap.write_read_ne _ _ _ _ (by simp [Heap.alloc]; omega)]
    exact Heap.alloc_read_old h _ r hr
  · rw [post_processing_black]
    exact Heap.alloc_read_old h _ r hr
  · rw [post_processing_none]
    exact Heap.alloc_read_old h _ r hr

/-- Witness for C8 with one mask, the method `"bbox_masks"` (the only
mutating branch). -/
theorem post_processing_preserves_input_masks_witness :
    ((post_processing blurA ellipseA heapA 0 imageA (10, 10, 3) "bbox_masks").1).data 0 =
      heapA.data 0 :=
  post_processing_preserves_input_masks blurA ellipseA heapA 0 imageA (10, 10, 3)
    "bbox_masks" (by decide) (by decide)

/-- C9: `post_processing` raises `ValueError` exactly for unrecognised
methods (so it returns normally for every recognised one), and when it
raises, the caller's mask list is unchanged. -/
theorem post_processing_valueerror_iff (blur : Image → Image)
    (ellipse : Int × Int → Int × Int → Image → Image) (h : Heap) (r : ℕ)
    (image : Image) (shape : Int × Int × Int) (method : String)
    (hr : r < h.next) :
    ((post_processing blur ellipse h r image shape method).2 = Except.error () ↔
      ¬ method ∈ recognizedMethods) ∧
    ((post_processing blur ellipse h r image shape method).2 = Except.error () →
      ((post_processing blur ellipse h r image shape method).1).data r = h.data r) := by
  by_cases hm : method ∈ recognizedMethods
  · have hok : ∃ p, (post_processing blur ellipse h r image shape method).2 =
        Except.ok p := by
      rcases mem_recognized_cases method hm with h1|h1|h1|h1|h1 <;> subst h1
      · rw [post_processing_blurred]; exact ⟨_, rfl⟩
      · rw [post_processing_red_circle]; exact ⟨_, rfl⟩
      · rw [post_processing_bbox]; exact ⟨_, rfl⟩
      · rw [post_processing_black]; exact ⟨_, rfl⟩
      · rw [post_processing_none]; exact ⟨_, rfl⟩
    obtain ⟨p, hp⟩ := hok
    refine ⟨⟨fun herr => ?_, fun hnm => absurd hm hnm⟩, fun herr => ?_⟩
    · rw [hp] at herr
      exact Except.noConfusion herr
    · rw [hp] at herr
      exact Except.noConfusion herr
  · rw [post_processing_unrecognized blur ellipse h r image shape method hm]
    exact ⟨⟨fun _ => hm, fun _ => rfl⟩, fun _ => Heap.alloc_read_old h _ r hr⟩

/-- Witness for C9 at the unrecognised method `"sharpen"`. -/
theorem post_processing_valueerror_iff_witness :
    ((post_processing blurA ellipseA heapA 0 imageA (10, 10, 3) "sharpen").2 =
        Except.error () ↔
      ¬ "sharpen" ∈ recognizedMethods) ∧
    ((post_processing blurA ellipseA heapA 0 imageA (10, 10, 3) "sharpen").2 =
        Except.error () →
      ((post_processing blurA ellipseA heapA 0 imageA (10, 10, 3) "sharpen").1).data 0 =
        heapA.data 0) :=
  post_processing_valueerror_iff blurA ellipseA heapA 0 imageA (10, 10, 3)
    "sharpen" (by decide)

/-- C5: the `i`-th image returned by `blurred_masks` agrees with the original
image at every pixel and channel where the `i`-th mask's segmentation is 1,
and equals the blurred image (`cv2.GaussianBlur` with kernel 15x15, here the
`blur` parameter) where the segmentation is 0. -/
theorem blurred_masks_pixels (blur : Image → Image) (masks : List Mask)
    (image : Image) (i : ℕ) (hi : i < masks.length) (r c ch : Int) :
    (blurred_masks blur masks image).getD i default r c ch =
      if (masks.getD i default).segmentation r c then image r c ch
      else blur image r c ch := by
  have hlen : i < (blurred_masks blur masks image).length := by
    simpa [blurred_masks] using hi
  rw [List.getD_eq_getElem _ _ hlen, List.getD_eq_getElem _ _ hi]
  simp only [blurred_masks, List.getElem_map]
  cases hseg : (masks.get ⟨i, hi⟩).segmentation r c <;>
    simp [maskVal, ← List.get_eq_getElem, hseg]

/-- Witness for C5 at a mask pixel (the mask covers `(0,0)`) and at an
uncovered pixel. -/
theorem blurred_masks_pixels_witness :
    (blurred_masks blurA [maskA] imageA).getD 0 default 0 0 0 =
      if (([maskA].getD 0 default).segmentation 0 0) then imageA 0 0 0
      else blurA imageA 0 0 0 :=
  blurred_masks_pixels blurA [maskA] imageA 0 (by decide) 0 0 0

/-- C6: the `i`-th image returned by `black_background_masks` equals the
original image where the `i`-th mask's segmentation is 1 and is 0 (black)
where it is 0.  The embedding is pure: the multiplication acts on a copy
(`image.copy()`), the input image value is untouched. -/
theorem black_background_masks_pixels (masks : List Mask) (image : Image)
    (i : ℕ) (hi : i < masks.length) (r c ch : Int) :
    (black_background_masks masks image).getD i default r c ch =
      if (masks.getD i default).segmentation r c then image r c ch else 0 := by
  have hlen : i < (black_background_masks masks image).length := by
    simpa [black_background_masks] using hi
  rw [List.getD_eq_getElem _ _ hlen, List.getD_eq_getElem _ _ hi]
  simp only [black_background_masks, List.getElem_map]
  cases hseg : (masks.get ⟨i, hi⟩).segmentation r c <;>
    simp [maskVal, ← List.get_eq_getElem, hseg]

/-- Witness for C6. -/
theorem black_background_masks_pixels_witness :
    (black_background_masks [maskA] imageA).getD 0 default 0 0 0 =
      if (([maskA].getD 0 default).segmentation 0 0) then imageA 0 0 0 else 0 :=
  black_background_masks_pixels [maskA] imageA 0 (by decide) 0 0 0

/-- C7: the `i`-th image returned by `bbox_masks` is the crop of the input
image at the padded region `(x1, y1, new_height, new_width)` computed by
`add_padding` from the mask's bbox with padding fraction 0.15, and the `i`-th
returned mask carries the segmentation cropped at that same region with its
bbox overwritten by that region. -/
theorem bbox_masks_crop (masks : List Mask) (image : Image)
    (shape : Int × Int × Int) (i : ℕ) (hi : i < masks.length)
    (x1 y1 nh nw : Int)
    (hpad : add_padding (masks.getD i default).bbox shape (15 / 100) =
      (x1, y1, nh, nw)) :
    (bbox_masks masks image shape).1.getD i default =
      (fun r c ch => image (y1 + r) (x1 + c) ch) ∧
    (bbox_masks masks image shape).2.getD i default =
      { segmentation := fun r c =>
          (masks.getD i default).segmentation (y1 + r) (x1 + c),
        bbox := ⟨x1, y1, nh, nw⟩ } := by
  have hlen1 : i < (bbox_masks masks image shape).1.length := by
    simpa [bbox_masks] using hi
  have hlen2 : i < (bbox_masks masks image shape).2.length := by
    simpa [bbox_masks] using hi
  rw [List.getD_eq_getElem _ _ hi] at hpad
  constructor
  · rw [List.getD_eq_getElem _ _ hlen1]
    simp only [bbox_masks, List.getElem_map]
    funext r c ch
    show image ((padded_region (masks.get ⟨i, hi⟩) shape).2.1 + r)
      ((padded_region (masks.get ⟨i, hi⟩) shape).1 + c) ch = _
    rw [padded_region, List.get_eq_getElem, hpad]
  · rw [List.getD_eq_getElem _ _ hlen2, List.getD_eq_getElem _ _ hi]
    simp only [bbox_masks, List.getElem_map]
    show Mask.mk _ _ = _
    rw [Mask.mk.injEq]
    constructor
    · funext r c
      show (masks.get ⟨i, hi⟩).segmentation
        ((padded_region (masks.get ⟨i, hi⟩) shape).2.1 + r)
        ((padded_region (masks.get ⟨i, hi⟩) shape).1 + c) = _
      rw [padded_region, List.get_eq_getElem, hpad]
    · show Bbox.mk (padded_region (masks.get ⟨i, hi⟩) shape).1
        (padded_region (masks.get ⟨i, hi⟩) shape).2.1
        (padded_region (masks.get ⟨i, hi⟩) shape).2.2.1
        (padded_region (masks.get ⟨i, hi⟩) shape).2.2.2 = _
      rw [padded_region, List.get_eq_getElem, hpad]

/-- Witness for C7: `maskA`'s bbox `[0, 0, 1, 1]` in a 10x10 image pads to
the region `(0, 0, 1, 1)`. -/
theorem bbox_masks_crop_witness :
    (bbox_masks [maskA] imageA (10, 10, 3)).1.getD 0 default =
      (fun r c ch => imageA (0 + r) (0 + c) ch) ∧
    (bbox_masks [maskA] imageA (10, 10, 3)).2.getD 0 default =
      { segmentation := fun r c =>
          (([maskA].getD 0 default).segmentation (0 + r) (0 + c)),
        bbox := ⟨0, 0, 1, 1⟩ } :=
  bbox_masks_crop [maskA] imageA (10, 10, 3) 0 (by decide) 0 0 1 1
    (by norm_num [add_padding, pyInt, Rat.floor, maskA, List.getD])

/-! ## Label-map assembly (`Evaluator.add_labels`, `src/sam_pipeline.py`)

`self.ade_voc` is an insertion-ordered dict from text to label id, and
`self.new_label_idx` the next fresh id; `add_labels` first registers unseen
texts, then builds `semseg = torch.zeros((1, H, W), dtype=int32)` and performs
one masked write `semseg[:, mask['segmentation']] = self.ade_voc[text]` per
`(text, mask)` pair of `zip(text_predictions, masks)`, in order. -/

abbrev Voc := List (String × ℕ)

/-- The vocabulary-update loop at the top of `add_labels`: each text not yet
in `ade_voc` is bound to `new_label_idx`, which is then incremented. -/
def updateVoc (st : Voc × ℕ) (texts : List String) : Voc × ℕ :=
  texts.foldl
    (fun st text =>
      if (st.1.lookup text).isSome then st else (st.1 ++ [(text, st.2)], st.2 + 1))
    st

/-- One masked assignment `semseg[:, seg] = lbl` on the `(1, H, W)` tensor
(nested lists, outer dimension fully selected by `[:]`). -/
def writeLabel (seg : Int → Int → Bool) (lbl : ℤ) (g : List (List (List ℤ))) :
    List (List (List ℤ)) :=
  g.map fun plane => plane.mapIdx fun i row => row.mapIdx fun j v =>
    if seg (i : ℤ) (j : ℤ) then lbl else v

/-- The write loop of `add_labels`; a missing key in `ade_voc` would raise
`KeyError`, modelled by `none` (after the update loop no key is missing). -/
def applyWrites (voc : Voc) : List (String × Mask) → List (List (List ℤ)) →
    Option (List (List (List ℤ)))
  | [], g => some g
  | (t, m) :: rest, g =>
    match voc.lookup t with
    | none => none
    | some lbl => applyWrites voc rest (writeLabel m.segmentation (lbl : ℤ) g)

/-- `Evaluator.add_labels(image, text_predictions, masks)`: the result is the
written label tensor together with the updated `(ade_voc, new_label_idx)`
state.  `image_shape` is the `(C, H, W)` shape of the image tensor, the only
part of `image` the function reads (`newshape = (1, shape[1], shape[2])`). -/
def add_labels (voc : Voc) (new_label_idx : ℕ) (image_shape : ℕ × ℕ × ℕ)
    (text_predictions : List String) (masks : List Mask) :
    Option (List (List (List ℤ)) × Voc × ℕ) :=
  let st := updateVoc (voc, new_label_idx) text_predictions
  let H := image_shape.2.1
  let W := image_shape.2.2
  let semseg0 : List (List (List ℤ)) :=
    List.replicate 1 (List.replicate H (List.replicate W 0))
  (applyWrites st.1 (text_predictions.zip masks) semseg0).map fun g => (g, st)

/-- Pixel read `g[0][i][j]` (0 outside). -/
def getPix (g : List (List (List ℤ))) (i j : ℕ) : ℤ :=
  ((g.getD 0 []).getD i []).getD j 0

/-- Spec-side value of a pixel after a sequence of masked writes, from the
claim's words: the label (under `voc`) of the last pair in list order whose
mask covers `(i, j)`, or `dflt` when none covers it. -/
def lastWriteValue (voc : Voc) (ps : List (String × Mask)) (i j : ℕ)
    (dflt : ℤ) : ℤ :=
  match ps.reverse.find? (fun p => p.2.segmentation (i : ℤ) (j : ℤ)) with
  | some p => (((voc.lookup p.1).getD 0 : ℕ) : ℤ)
  | none => dflt

/-- Well-formedness of the label tensor: shape `(1, H, W)`. -/
def GridWF (g : List (List (List ℤ))) (H W : ℕ) : Prop :=
  g.length = 1 ∧ (g.getD 0 []).length = H ∧ ∀ row ∈ g.getD 0 [], row.length = W

lemma zeros_WF (H W : ℕ) :
    GridWF (List.replicate 1 (List.replicate H (List.replicate W (0 : ℤ)))) H W := by
  refine ⟨by simp, by simp, ?_⟩
  intro row hrow
  simp only [List.replicate, List.getD_cons_zero] at hrow
  rw [List.eq_of_mem_replicate hrow]
  simp

lemma getD_replicate {α : Type} (n : ℕ) (x : α) (i : ℕ) (d : α) :
    (List.replicate n x).getD i d = if i < n then x else d := by
  induction n generalizing i with
  | zero => simp [List.replicate]
  | succ m ih =>
      cases i with
      | zero => simp [List.replicate]
      | succ k =>
          rw [List.replicate_succ, List.getD_cons_succ, ih]
          simp [Nat.succ_lt_succ_iff]

lemma getD_mapIdx {α β : Type} (l : List α) (f : ℕ → α → β) (i : ℕ) (d : β)
    (hi : i < l.length) :
    (l.mapIdx f).getD i d = f i (l.get ⟨i, hi⟩) := by
  rw [List.getD_eq_getElem _ _ (by simpa using hi)]
  rw [List.getElem_mapIdx]
  rfl

lemma getPix_zeros (H W i j : ℕ) :
    getPix (List.replicate 1 (List.replicate H (List.replicate W (0 : ℤ)))) i j = 0 := by
  unfold getPix
  simp only [List.replicate, List.getD_cons_zero]
  rw [getD_replicate]
  split_ifs
  · rw [getD_replicate]
    split_ifs <;> rfl
  · simp [List.getD]

lemma writeLabel_WF (seg : Int → Int → Bool) (lbl : ℤ)
    (g : List (List (List ℤ))) (H W : ℕ) (h : GridWF g H W) :
    GridWF (writeLabel seg lbl g) H W := by
  obtain ⟨h1, h2, h3⟩ := h
  obtain ⟨plane, rfl⟩ := List.length_eq_one.mp h1
  simp only [List.getD_cons_zero] at h2 h3
  refine ⟨by simp [writeLabel], ?_, ?_⟩
  · simp [writeLabel, h2]
  · intro row hrow
    simp only [writeLabel, List.map_cons, List.map_nil, List.getD_cons_zero] at hrow
    rw [List.mem_iff_getElem] at hrow
    obtain ⟨n, hn, hrow⟩ := hrow
    rw [List.getElem_mapIdx] at hrow
    rw [← hrow]
    simp only [List.length_mapIdx]
    apply h3
    exact List.getElem_mem _

lemma getPix_writeLabel (seg : Int → Int → Bool) (lbl : ℤ)
    (g : List (List (List ℤ))) (H W : ℕ) (h : GridWF g H W)
    (i j : ℕ) (hi : i < H) (hj : j < W) :
    getPix (writeLabel seg lbl g) i j =
      if seg (i : ℤ) (j : ℤ) then lbl else getPix g i j := by
  obtain ⟨h1, h2, h3⟩ := h
  obtain ⟨plane, rfl⟩ := List.length_eq_one.mp h1
  simp only [List.getD_cons_zero] at h2 h3
  have hip : i < plane.length := by omega
  have hjr : j < (plane.get ⟨i, hip⟩).length := by
    rw [h3 _ (List.get_mem plane i hip)]
    exact hj
  have hjr2 : j < plane[i].length := by
    simpa only [List.get_eq_getElem] using hjr
  unfold getPix writeLabel
  simp only [List.map_cons, List.map_nil, List.getD_cons_zero]
  rw [getD_mapIdx plane _ i [] hip]
  rw [getD_mapIdx (plane.get ⟨i, hip⟩) _ j 0 hjr]
  rw [List.getD_eq_getElem plane [] hip]
  rw [List.getD_eq_getElem _ 0 hjr2]
  simp [List.get_eq_getElem]

lemma applyWrites_pix (voc : Voc) (ps : List (String × Mask))
    (g : List (List (List ℤ))) (H W : ℕ) (hWF : GridWF g H W)
    (hall : ∀ p ∈ ps, (voc.lookup p.1).isSome) :
    ∃ g', applyWrites voc ps g = some g' ∧ GridWF g' H W ∧
      ∀ i j : ℕ, i < H → j < W →
        getPix g' i j = lastWriteValue voc ps i j (getPix g i j) := by
  induction ps generalizing g with
  | nil =>
      refine ⟨g, rfl, hWF, ?_⟩
      intro i j _ _
      simp [lastWriteValue]
  | cons p rest ih =>
      obtain ⟨t, m⟩ := p
      obtain ⟨lbl, hlbl⟩ := Option.isSome_iff_exists.mp
        (hall (t, m) (List.mem_cons_self _ _))
      have hrest : ∀ q ∈ rest, (voc.lookup q.1).isSome := fun q hq =>
        hall q (List.mem_cons_of_mem _ hq)
      obtain ⟨g', heq, hwf', hpix⟩ :=
        ih (writeLabel m.segmentation (lbl : ℤ) g)
          (writeLabel_WF _ _ _ _ _ hWF) hrest
      refine ⟨g', ?_, hwf', ?_⟩
      · simp only [applyWrites, hlbl]
        exact heq
      · intro i j hi hj
        rw [hpix i j hi hj,
          getPix_writeLabel m.segmentation (lbl : ℤ) g H W hWF i j hi hj]
        unfold lastWriteValue
        rw [List.reverse_cons, List.find?_append]
        cases hfind : rest.reverse.find?
            (fun q => q.2.segmentation (i : ℤ) (j : ℤ)) with
        | some q => simp [hfind]
        | none =>
            simp only [hfind, Option.none_or]
            cases hseg : m.segmentation (i : ℤ) (j : ℤ) <;>
              simp [List.find?, hseg, hlbl]

lemma lookup_append_isSome {l1 : Voc} (l2 : Voc) (t : String)
    (h : (l1.lookup t).isSome) : ((l1 ++ l2).lookup t).isSome := by
  induction l1 with
  | nil => simp [List.lookup] at h
  | cons hd tl ih =>
      obtain ⟨k, v⟩ := hd
      rw [List.cons_append]
      rw [List.lookup_cons] at h ⊢
      revert h
      cases hkt : (t == k) <;> intro h
      · exact ih h
      · exact h

lemma lookup_append_self (l1 : Voc) (t : String) (idx : ℕ) :
    ((l1 ++ [(t, idx)]).lookup t).isSome := by
  induction l1 with
  | nil =>
      rw [List.nil_append, List.lookup_cons, beq_self_eq_true]
      rfl
  | cons hd tl ih =>
      obtain ⟨k, v⟩ := hd
      rw [List.cons_append, List.lookup_cons]
      cases hkt : (t == k)
      · exact ih
      · rfl

lemma updateVoc_lookup_isSome (texts : List String) (st : Voc × ℕ) (t : String)
    (h : (st.1.lookup t).isSome ∨ t ∈ texts) :
    (((updateVoc st texts).1).lookup t).isSome := by
  induction texts generalizing st with
  | nil =>
      rcases h with h | h
      · exact h
      · cases h
  | cons u rest ih =>
      rw [updateVoc, List.foldl_cons]
      rcases h with h | h
      · apply ih
        left
        by_cases hu : (st.1.lookup u).isSome
        · simpa [hu] using h
        · simp only [hu, if_false]
          exact lookup_append_isSome _ t h
      · rcases List.mem_cons.mp h with rfl | hmem
        · apply ih
          left
          by_cases hu : (st.1.lookup t).isSome
          · simp [hu]
          · simp only [hu, if_false]
            exact lookup_append_self _ t _
        · exact ih _ (Or.inr hmem)

/-- C3: for every image shape `(C, H, W)`, text-prediction list and equally
long mask list, `add_labels` returns a `(1, H, W)` tensor in which every
pixel holds the vocabulary label (under the updated `ade_voc`) of the last
mask in list order covering it, and 0 where no mask covers it. -/
theorem add_labels_last_write_wins (voc : Voc) (idx : ℕ) (C H W : ℕ)
    (texts : List String) (masks : List Mask)
    (hlen : texts.length = masks.length) :
    ∃ g voc' idx',
      add_labels voc idx (C, H, W) texts masks = some (g, voc', idx') ∧
      g.length = 1 ∧ (g.getD 0 []).length = H ∧
      (∀ row ∈ g.getD 0 [], row.length = W) ∧
      ∀ i j : ℕ, i < H → j < W →
        getPix g i j = lastWriteValue voc' (texts.zip masks) i j 0 := by
  have hall : ∀ p ∈ texts.zip masks,
      (((updateVoc (voc, idx) texts).1).lookup p.1).isSome := by
    intro p hp
    exact updateVoc_lookup_isSome texts (voc, idx) p.1
      (Or.inr (List.of_mem_zip hp).1)
  obtain ⟨g, heq, hwf, hpix⟩ :=
    applyWrites_pix ((updateVoc (voc, idx) texts).1) (texts.zip masks)
      (List.replicate 1 (List.replicate H (List.replicate W 0))) H W
      (zeros_WF H W) hall
  refine ⟨g, (updateVoc (voc, idx) texts).1, (updateVoc (voc, idx) texts).2,
    ?_, hwf.1, hwf.2.1, hwf.2.2, ?_⟩
  · simp only [add_labels]
    rw [heq]
    rfl
  · intro i j hi hj
    rw [hpix i j hi hj, getPix_zeros]

/-- Witness for C3: one text and one mask (covering pixel `(0, 0)`) on a
`(3, 2, 2)` image. -/
theorem add_labels_last_write_wins_witness :
    ∃ g voc' idx',
      add_labels [] 0 (3, 2, 2) ["a"] [maskA] = some (g, voc', idx') ∧
      g.length = 1 ∧ (g.getD 0 []).length = 2 ∧
      (∀ row ∈ g.getD 0 [], row.length = 2) ∧
      ∀ i j : ℕ, i < 2 → j < 2 →
        getPix g i j = lastWriteValue voc' (["a"].zip [maskA]) i j 0 :=
  add_labels_last_write_wins [] 0 3 2 2 ["a"] [maskA] (by decide)

/-! ## The per-batch scoring step of `Evaluator.eval`

Lines 94–105 of `src/sam_pipeline.py`:
```
logits = self.clip.classify(images, masks, vocabulary)
predictions = torch.argmax(logits, dim=1)
text_predictions = [vocabulary[pred.item()][0] for pred in predictions]
semseg = self.add_labels(image, text_predictions, original_masks)
...
output = [{'sem_seg': logits}]
if self.evaluator is not None:
    self.evaluator.process(inputs=batch, outputs=output)
```
The tensor handed to the external evaluator under the key `'sem_seg'` is
`logits` (shape `(num_masks, vocab_size)`); the `semseg` label map built by
`add_labels` is never passed on. -/

/-- `torch.argmax` over a row: index of the maximum (first occurrence). -/
def argmaxIdx (l : List ℚ) : ℕ :=
  (l.enum.foldl (fun best p => if p.2 > best.2 then p else best) (0, l.getD 0 0)).1

/-- The per-batch dataflow of `Evaluator.eval` after classification: from the
`(ade_voc, new_label_idx)` state, the image shape `(C, H, W)`, the batch
vocabulary (a list of synonym tuples), the filtered masks (`original_masks`)
and the classifier logits, produce the pair of
(tensor passed to `evaluator.process` as `output[0]['sem_seg']`,
result of `self.add_labels`). -/
def eval_batch (voc : Voc) (idx : ℕ) (image_shape : ℕ × ℕ × ℕ)
    (vocabulary : List (List String)) (original_masks : List Mask)
    (logits : List (List ℚ)) :
    List (List ℚ) × Option (List (List (List ℤ)) × Voc × ℕ) :=
  let predictions := logits.map argmaxIdx
  let text_predictions := predictions.map fun p => (vocabulary.getD p []).getD 0 ""
  let semseg := add_labels voc idx image_shape text_predictions original_masks
  (logits, semseg)

/-- Shape of a 2-dimensional nested-list tensor. -/
def tensorShape2 (t : List (List ℚ)) : List ℕ :=
  [t.length, (t.getD 0 []).length]

/-- Shape of a 3-dimensional nested-list tensor. -/
def tensorShape3 (t : List (List (List ℤ))) : List ℕ :=
  [t.length, (t.getD 0 []).length, ((t.getD 0 []).getD 0 []).length]

/-- C2 fails on the code: on a concrete batch (a `(3, 2, 2)` image, one mask,
a three-word vocabulary, logits `[[1, 0, 0]]`), the tensor `Evaluator.eval`
passes to the external evaluator under `'sem_seg'` is the raw logits tensor
`[[1, 0, 0]]`, while `add_labels` returns the dense label map of shape
`(1, 2, 2)` — the scored tensor is not the label map (their shapes already
differ). -/
theorem eval_batch_scores_logits_not_label_map :
    (eval_batch [] 0 (3, 2, 2) [["a"], ["b"], ["c"]] [maskA] [[1, 0, 0]]).1 =
      [[1, 0, 0]] ∧
    ∃ g voc' idx',
      (eval_batch [] 0 (3, 2, 2) [["a"], ["b"], ["c"]] [maskA] [[1, 0, 0]]).2 =
        some (g, voc', idx') ∧
      tensorShape2
          (eval_batch [] 0 (3, 2, 2) [["a"], ["b"], ["c"]] [maskA] [[1, 0, 0]]).1 ≠
        tensorShape3 g := by
  refine ⟨rfl, [[[0, 0], [0, 0]]], [("a", 0)], 1, ?_, by decide⟩
  decide

end VFSS
